import Mathlib

/-!
# Verified-index subsystem of seim0: a shallow embedding

This file embeds, in Lean, the Merkle-verified indexing subsystem of the
seim0 repository — chiefly `SeiIndexer` from
`src/oss/src/vector_stores/sei_indexer.ts`, together with the leaf
computation of `src/oss/src/graphs/cambrian_memory_tool.ts` — and proves
or refutes the specification's claims about it.

Digests are modelled as the hex strings the TypeScript code manipulates
(`"0x" ++ 64 hex chars`); the rolling hash operates on the code-unit
sequence of its input string exactly as `simpleHash` does, with JavaScript
32-bit signed integer wrap-around made explicit.  All strings arising in
the code and in the concrete inputs below are ASCII, for which Lean's
`Char.toNat` agrees with JavaScript's `charCodeAt`.
-/

namespace Seim0

set_option maxRecDepth 20000

/-- JavaScript `ToInt32`: wrap an integer into `[-2^31, 2^31)`, as the
bitwise operators (`<< 5`, `& hash`) do in `simpleHash`. -/
def toInt32 (n : Int) : Int := (n + 2 ^ 31) % 2 ^ 32 - 2 ^ 31

/-- One iteration of `simpleHash`'s loop:
`hash = (hash << 5) - hash + char; hash = hash & hash`.
`hash << 5` coerces its operand to int32 and wraps the shifted result;
the following subtraction and addition are exact in IEEE doubles at these
magnitudes; `hash & hash` wraps the sum back to int32. -/
def hashStep (h : Int) (c : Nat) : Int := toInt32 (toInt32 (h * 32) - h + c)

/-- The 32-bit rolling hash both `SeiIndexer.simpleHash` and
`CambrianMemoryTool.simpleHash` run over the input's character codes,
before formatting: `Math.abs` of the final signed accumulator. -/
def simpleHashNat (s : String) : Nat :=
  (s.data.foldl (fun h ch => hashStep h ch.toNat) 0).natAbs

/-- The rolling hash resumed from an arbitrary accumulator; `simpleHashNat`
is `hashAcc` from `0`, and concatenations split into `hashAcc` chains,
which lets long concrete inputs be evaluated in bounded pieces. -/
def hashAcc (h : Int) (s : String) : Int :=
  s.data.foldl (fun h ch => hashStep h ch.toNat) h

/-- `n.toString(16)`: lowercase hexadecimal digits, most significant first. -/
def natToHex (n : Nat) : String := String.mk (Nat.toDigits 16 n)

/-- `.padStart(64, "0")`. -/
def padStart64 (s : String) : String :=
  if s.length < 64 then String.mk (List.replicate (64 - s.length) '0') ++ s else s

/-- `SeiIndexer.simpleHash`: the rolling hash formatted as
`Math.abs(hash).toString(16).padStart(64, "0")`.  (`CambrianMemoryTool`
splits the same computation between its `simpleHash`, which returns the
`Math.abs` number, and its call sites, which format identically.) -/
def simpleHash (s : String) : String := padStart64 (natToHex (simpleHashNat s))

/-- `SeiIndexer.hashLeaf`: digest of
`` `${cid}-${embedding.slice(0, 10).join(",")}-${timestamp}` ``.
Embedding components are modelled as integers; JavaScript prints
integer-valued numbers without a decimal point, so `toString` below matches
`join`'s element conversion on such values. -/
def hashLeaf (cid : String) (embedding : List Int) (timestamp : Int) : String :=
  "0x" ++ simpleHash
    (cid ++ "-" ++ String.intercalate "," ((embedding.take 10).map toString)
      ++ "-" ++ toString timestamp)

/-- `computeMerkleLeaf` of `cambrian_memory_tool.ts`: digest of
`` `${cid}${embedding.slice(0, 5).join("")}${timestamp}` ``, formatted as
`toString(16).padStart(64, "0")` of the tool's `simpleHash` number. -/
def computeMerkleLeaf (cid : String) (embedding : List Int) (timestamp : Int) : String :=
  "0x" ++ simpleHash
    (cid ++ String.join ((embedding.take 5).map toString) ++ toString timestamp)

/-- `SeiIndexer.hashPair`: digest of the concatenation of the two child
digest strings. -/
def hashPair (left right : String) : String := "0x" ++ simpleHash (left ++ right)

/-- The sentinel root `computeMerkleRoot` returns for an empty leaf list. -/
def zeroRoot : String :=
  "0x0000000000000000000000000000000000000000000000000000000000000000"

/-- One level of `computeMerkleRoot`'s bottom-up loop: pair adjacent digests
left to right; an unpaired trailing digest is paired with itself
(`right = i + 1 < length ? level[i+1] : left`). -/
def nextLevel : List String → List String
  | [] => []
  | [x] => [hashPair x x]
  | x :: y :: rest => hashPair x y :: nextLevel rest

/-- Each level halves the node count, rounding up; this bounds the
`while (currentLevel.length > 1)` loops below. -/
theorem nextLevel_length : ∀ l : List String, (nextLevel l).length = (l.length + 1) / 2
  | [] => by simp [nextLevel]
  | [_] => by simp [nextLevel]
  | _ :: _ :: rest => by
      simp only [nextLevel, List.length_cons, nextLevel_length rest]
      omega

/-- The `while` loop of `SeiIndexer.computeMerkleRoot`, together with its
empty- and single-leaf early returns, as a recursion on the current level. -/
def buildRoot : List String → String
  | [] => zeroRoot
  | [x] => x
  | x :: y :: rest => buildRoot (nextLevel (x :: y :: rest))
  termination_by l => l.length
  decreasing_by simp [nextLevel_length]; omega

/-- One indexed memory unit (`IndexEntry` of `sei_indexer.ts`).  Metadata is
modelled as an association list of string fields; only its equality matters
to the claims below. -/
structure IndexEntry where
  cid : String
  embedding : List Int
  metadata : List (String × String)
  timestamp : Int
  streamId : String
  deriving Repr, DecidableEq

/-- The leaf digest of an entry, as every call site computes it:
`hashLeaf(entry.cid, entry.embedding, entry.timestamp)`. -/
def leafOf (e : IndexEntry) : String := hashLeaf e.cid e.embedding e.timestamp

/-- `SeiIndexer.computeMerkleRoot`: map entries to leaf digests, then run
the bottom-up pairing loop. -/
def computeMerkleRoot (entries : List IndexEntry) : String :=
  buildRoot (entries.map leafOf)

/-- The `while (currentLevel.length > 1)` loop of
`SeiIndexer.generateProofPath`: at each level take the sibling index by
parity, push the sibling digest only when that index is in range
(`if (siblingIndex < currentLevel.length)`), then move to the next level
with the halved index. -/
def proofLoop : List String → Nat → List String
  | [], _ => []
  | [_], _ => []
  | x :: y :: rest, idx =>
    (match (x :: y :: rest).get? (if idx % 2 == 0 then idx + 1 else idx - 1) with
      | some s => [s]
      | none => []) ++ proofLoop (nextLevel (x :: y :: rest)) (idx / 2)
  termination_by l _ => l.length
  decreasing_by simp [nextLevel_length]; omega

/-- `SeiIndexer.generateProofPath`: compute the leaf digests, locate the
target leaf by first occurrence (`indexOf`, `[]` when absent), and walk the
levels. -/
def generateProofPath (entries : List IndexEntry) (target : IndexEntry) : List String :=
  let leaves := entries.map leafOf
  let targetLeaf := leafOf target
  match leaves.findIdx? (· == targetLeaf) with
  | none => []
  | some i => proofLoop leaves i

/-- `MerkleProof` of `sei_indexer.ts`: leaf digest, sibling path, root. -/
structure MerkleProof where
  leaf : String
  proof : List String
  root : String
  deriving Repr, DecidableEq

/-- Modelled from the spec: the repository ships no Merkle proof verifier —
`verifyResult` in `cambrian_memory_tool.ts` is a stub returning `true`
unconditionally — so §4.3's verifier is modelled here: starting from the
target leaf, repeatedly hash `(current, sibling)` with the left/right
concatenation order of each level.  The generated proof records no order
field, so the order is recovered the only way the data allows: from the
target index's parity at each level, halving the index as the walk ascends. -/
def verifyFold (leaf : String) : Nat → List String → String
  | _, [] => leaf
  | idx, s :: rest =>
    if idx % 2 == 0 then verifyFold (hashPair leaf s) (idx / 2) rest
    else verifyFold (hashPair s leaf) (idx / 2) rest

/-- Modelled from the spec: `verify(leaf, siblings, claimed_root)` compares
the recomputed path value to the claimed root. -/
def verifyProof (leaf : String) (idx : Nat) (siblings : List String) (root : String) : Bool :=
  verifyFold leaf idx siblings == root

/-- The index positions at which `generateProofPath` finds a sibling at
every level: at each level of the walk the parity-determined sibling index
is in range.  Exactly when this holds does the generated proof carry one
sibling per non-root level. -/
def fullPath : List String → Nat → Bool
  | [], _ => true
  | [_], _ => true
  | x :: y :: rest, idx =>
    decide ((if idx % 2 == 0 then idx + 1 else idx - 1) < (x :: y :: rest).length)
      && fullPath (nextLevel (x :: y :: rest)) (idx / 2)
  termination_by l _ => l.length
  decreasing_by simp [nextLevel_length]; omega

/-- The indexer's local index `indexEntries : Map<string, IndexEntry>`,
keyed by cid, in insertion order. -/
abbrev IndexMap := List (String × IndexEntry)

/-- `Map.get`. -/
def mapLookup : IndexMap → String → Option IndexEntry
  | [], _ => none
  | (k, v) :: rest, c => if k == c then some v else mapLookup rest c

/-- `Map.set`: replace an existing key in place, else append. -/
def mapSet : IndexMap → String → IndexEntry → IndexMap
  | [], c, v => [(c, v)]
  | (k, v') :: rest, c, v =>
    if k == c then (c, v) :: rest else (k, v') :: mapSet rest c v

/-- `Map.values()`, in insertion order. -/
def mapValues (m : IndexMap) : List IndexEntry := m.map (·.2)

/-- The entries of one stream, in index order — the filter both
`generateMerkleProof` and `updateIndexRoots` apply to
`indexEntries.values()`. -/
def entriesOfStream (m : IndexMap) (streamId : String) : List IndexEntry :=
  (mapValues m).filter (fun e => e.streamId == streamId)

/-- The content a `MemoryAppended` event's IPFS fetch yields (the JSON body
`fetchFromIPFS` parses): an optional precomputed embedding, the text,
metadata and timestamp. -/
structure Content where
  embedding : Option (List Int)
  text : String
  metadata : List (String × String)
  timestamp : Int
  deriving Repr, DecidableEq

/-- One `MemoryAppended` event as `processMemoryAppendedEvent` consumes it.
The two external calls are modelled as data the event carries: `fetched` is
`fetchFromIPFS`'s outcome (`none` = fetch failed, the code's `null`), and
`embedded` is the embedder's outcome for the content text (`none` = the
embedder threw, which `generateEmbedding` catches, returning `[]`). -/
structure AppendEvent where
  streamId : String
  cid : String
  merkleRoot : String
  blockNumber : Int
  fetched : Option Content
  embedded : Option (List Int)
  deriving Repr, DecidableEq

/-- `SeiIndexer.processMemoryAppendedEvent`, acting on the local index: a
failed fetch warns and returns with the index unchanged; otherwise the
embedding is the content's own or the embedder's (or `[]` if the embedder
failed), and the built entry is stored under its cid with `Map.set`.
(`storeInVectorDB` mirrors the same entry into the external vector store,
whose state the claims below read back only through this local index.) -/
def processMemoryAppendedEvent (m : IndexMap) (e : AppendEvent) : IndexMap :=
  match e.fetched with
  | none => m
  | some content =>
    let embedding :=
      match content.embedding with
      | some emb => emb
      | none => match e.embedded with
        | some emb => emb
        | none => []
    let entry : IndexEntry :=
      { cid := e.cid
        embedding := embedding
        metadata := content.metadata ++
          [("streamId", e.streamId), ("merkleRoot", e.merkleRoot),
           ("blockNumber", toString e.blockNumber)]
        timestamp := content.timestamp
        streamId := e.streamId }
    mapSet m e.cid entry

/-- The `for (const event of mockEvents)` loop of
`SeiIndexer.processNewEvents`: process the batch in order. -/
def processNewEvents (m : IndexMap) (events : List AppendEvent) : IndexMap :=
  events.foldl processMemoryAppendedEvent m

/-- Modelled from the spec: the vector-store `insert` implementation is not
in the repository (only the `VectorStore` interface is imported); §4.4 says
`insert` is idempotent by `content_address` and returns whether the entry
was newly inserted, i.e. whether the cid was absent before the call. -/
def insertNewlyInserted (m : IndexMap) (cid : String) : Bool :=
  (mapLookup m cid).isNone

/-- The stream identifiers in `indexEntries.values()` order, first
occurrence first — the key order of `updateIndexRoots`' `streamGroups`
map. -/
def streamIdsOf (m : IndexMap) : List String :=
  (mapValues m).foldl
    (fun acc e => if acc.contains e.streamId then acc else acc ++ [e.streamId]) []

/-- `SeiIndexer.updateIndexRoots` as the list of `(streamId, root)`
submissions one timer cycle performs: group the current entries by stream
and submit each group's recomputed Merkle root via `setIndexRootOnChain`
(which only logs; there is no stored per-stream root and no comparison in
the code). -/
def updateIndexRoots (m : IndexMap) : List (String × String) :=
  (streamIdsOf m).map (fun sid => (sid, computeMerkleRoot (entriesOfStream m sid)))

/-- `SeiIndexer.generateMerkleProof`: look the cid up in the local index —
absent means `throw new Error(...)` — then build leaf, path and root over
the entry's stream. -/
def generateMerkleProof (m : IndexMap) (cid : String) : Except String MerkleProof :=
  match mapLookup m cid with
  | none => .error ("Index entry not found for CID: " ++ cid)
  | some entry =>
    let streamEntries := entriesOfStream m entry.streamId
    .ok { leaf := leafOf entry
          proof := generateProofPath streamEntries entry
          root := computeMerkleRoot streamEntries }

/-- One hit returned by the external vector-store search. -/
structure Hit where
  id : String
  score : Int
  deriving Repr, DecidableEq

/-- One verified result of `SeiIndexer.search`. -/
structure VerifiedResult where
  id : String
  score : Int
  proof : MerkleProof
  deriving Repr, DecidableEq

/-- The proof-attaching loop of `SeiIndexer.search`, given the hits the
external vector store returned: each hit gets `generateMerkleProof(id)`
attached; the loop body runs inside `search`'s single `try`, whose `catch`
rethrows, so the first hit whose cid is missing aborts the whole call with
that error and no results are returned. -/
def searchVerifiedResults (m : IndexMap) : List Hit → Except String (List VerifiedResult)
  | [] => .ok []
  | h :: rest =>
    match generateMerkleProof m h.id with
    | .error e => .error e
    | .ok proof =>
      match searchVerifiedResults m rest with
      | .error e => .error e
      | .ok results => .ok ({ id := h.id, score := h.score, proof := proof } :: results)

/-! ## Concrete inputs used by counterexamples and witnesses -/

/-- A three-entry stream `"s"`: the smallest shape on which proof
generation meets a trailing odd node. -/
def entryA : IndexEntry :=
  { cid := "A", embedding := [1], metadata := [], timestamp := 1, streamId := "s" }

/-- Second entry of stream `"s"`. -/
def entryB : IndexEntry :=
  { cid := "B", embedding := [2], metadata := [], timestamp := 2, streamId := "s" }

/-- Third entry of stream `"s"`: leaf index 2, the trailing odd node. -/
def entryC : IndexEntry :=
  { cid := "C", embedding := [3], metadata := [], timestamp := 3, streamId := "s" }

/-- A one-entry index over stream `"s"`, for the search and anchoring
scenarios. -/
def exIndex : IndexMap := [("A", entryA)]

/-- Two vector-store hits: one present in the index (`"A"`), one absent
(`"X"`), as after a race with a concurrent insert. -/
def exHits : List Hit := [{ id := "A", score := 1 }, { id := "X", score := 0 }]

/-- An append event whose IPFS fetch succeeds, with a precomputed
embedding, for stream `"t"`. -/
def exEvent : AppendEvent :=
  { streamId := "t", cid := "E", merkleRoot := "0xabc", blockNumber := 5
    fetched := some { embedding := some [7], text := "x", metadata := [], timestamp := 9 }
    embedded := none }

/-- An append event whose IPFS fetch fails (`fetchFromIPFS` returned
`null`). -/
def exFailedEvent : AppendEvent :=
  { streamId := "t", cid := "F", merkleRoot := "0xdef", blockNumber := 6
    fetched := none, embedded := none }

/-- An append event reusing cid `"A"` under a different stream `"t2"`. -/
def exReuseEvent : AppendEvent :=
  { streamId := "t2", cid := "A", merkleRoot := "0xaaa", blockNumber := 7
    fetched := some { embedding := some [8], text := "y", metadata := [], timestamp := 10 }
    embedded := none }

/-! ## Helper lemmas -/

theorem simpleHashNat_eq_hashAcc (s : String) : simpleHashNat s = (hashAcc 0 s).natAbs := rfl

/-- The rolling hash of a concatenation resumes from the prefix's
accumulator. -/
theorem hashAcc_append (h : Int) (s t : String) :
    hashAcc h (s ++ t) = hashAcc (hashAcc h s) t := by
  simp [hashAcc, List.foldl_append]

/-- Evaluation scheme for `hashPair` on two concrete digests: split each
66-character digest into halves and run the rolling hash over the four
pieces, so each piece stays small enough to evaluate by `decide`. -/
theorem hashPair_eval (x y x1 x2 y1 y2 : String) (a1 a2 a3 a4 : Int) (out : String)
    (hx : x = x1 ++ x2) (hy : y = y1 ++ y2)
    (h1 : hashAcc 0 x1 = a1) (h2 : hashAcc a1 x2 = a2)
    (h3 : hashAcc a2 y1 = a3) (h4 : hashAcc a3 y2 = a4)
    (hout : "0x" ++ padStart64 (natToHex a4.natAbs) = out) :
    hashPair x y = out := by
  have hdef : hashPair x y = "0x" ++ padStart64 (natToHex (hashAcc 0 (x ++ y)).natAbs) := rfl
  rw [hdef, hx, hy, hashAcc_append, hashAcc_append, hashAcc_append, h1, h2, h3, h4, hout]

/-- A parent node of `nextLevel` read back through its index: position `j`
of the next level is the pair hash of positions `2j` and `2j+1`, whenever
both exist. -/
theorem nextLevel_get?_pair : ∀ (l : List String) (j : Nat) (x y : String),
    l.get? (2 * j) = some x → l.get? (2 * j + 1) = some y →
    (nextLevel l).get? j = some (hashPair x y)
  | [], _, _, _, hx, _ => by simp at hx
  | [_], _, _, _, _, hy => by
      obtain ⟨hlt, -⟩ := List.get?_eq_some.mp hy
      simp at hlt
  | z :: w :: rest, 0, x, y, hx, hy => by
      simp [List.get?] at hx hy
      subst hx
      subst hy
      simp [nextLevel, List.get?]
  | z :: w :: rest, j + 1, x, y, hx, hy => by
      have hx' : rest.get? (2 * j) = some x := by
        rw [show 2 * (j + 1) = 2 * j + 1 + 1 from by ring] at hx
        simpa using hx
      have hy' : rest.get? (2 * j + 1) = some y := by
        rw [show 2 * (j + 1) + 1 = 2 * j + 1 + 1 + 1 from by ring] at hy
        simpa using hy
      have hrec := nextLevel_get?_pair rest j x y hx' hy'
      simpa [nextLevel] using hrec

/-- C1 (amended): for every leaf-digest list and valid target index such
that the walk finds a sibling in range at every level (so none is skipped
— e.g. any power-of-two leaf count), folding the recorded siblings back
from the target leaf with parity-determined left/right order reproduces
exactly the root the builder computes.  When some level's sibling index is
out of range the generator records nothing for that level and this
round-trip fails (see the counterexample). -/
theorem verify_roundtrip : ∀ (l : List String) (idx : Nat) (leaf : String),
    l.get? idx = some leaf → fullPath l idx = true →
    verifyFold leaf idx (proofLoop l idx) = buildRoot l
  | [], _, _, hget, _ => by simp at hget
  | [x], idx, leaf, hget, _ => by
      rcases idx with _ | idx
      · simp [List.get?] at hget
        subst hget
        simp [proofLoop, verifyFold, buildRoot]
      · simp [List.get?] at hget
  | a :: b :: rest, idx, leaf, hget, hgood => by
      have hgood' : ((if idx % 2 == 0 then idx + 1 else idx - 1) < (a :: b :: rest).length)
          ∧ fullPath (nextLevel (a :: b :: rest)) (idx / 2) = true := by
        rw [fullPath] at hgood
        simpa using hgood
      obtain ⟨hsib, hrest⟩ := hgood'
      have hs := List.get?_eq_get hsib
      set s := (a :: b :: rest).get ⟨(if idx % 2 == 0 then idx + 1 else idx - 1), hsib⟩ with hsdef
      rw [proofLoop, hs]
      rcases Nat.mod_two_eq_zero_or_one idx with hpar | hpar
      · have hif : (idx % 2 == 0) = true := by simp [hpar]
        have hx : (a :: b :: rest).get? (2 * (idx / 2)) = some leaf := by
          rw [show 2 * (idx / 2) = idx from by omega]
          exact hget
        have hy : (a :: b :: rest).get? (2 * (idx / 2) + 1) = some s := by
          rw [show 2 * (idx / 2) + 1 = idx + 1 from by omega]
          simpa [hif] using hs
        have hrec := verify_roundtrip (nextLevel (a :: b :: rest)) (idx / 2)
          (hashPair leaf s) (nextLevel_get?_pair _ _ _ _ hx hy) hrest
        simp only [hif, if_true]
        simp only [verifyFold, hif, if_true]
        rw [buildRoot]
        exact hrec
      · have hif : (idx % 2 == 0) = false := by simp [hpar]
        have hx : (a :: b :: rest).get? (2 * (idx / 2)) = some s := by
          rw [show 2 * (idx / 2) = idx - 1 from by omega]
          simpa [hif] using hs
        have hy : (a :: b :: rest).get? (2 * (idx / 2) + 1) = some leaf := by
          rw [show 2 * (idx / 2) + 1 = idx from by omega]
          exact hget
        have hrec := verify_roundtrip (nextLevel (a :: b :: rest)) (idx / 2)
          (hashPair s leaf) (nextLevel_get?_pair _ _ _ _ hx hy) hrest
        simp only [hif, if_false]
        simp only [verifyFold, hif, Bool.false_eq_true, if_false]
        rw [buildRoot]
        exact hrec
  termination_by l _ _ _ _ => l.length
  decreasing_by all_goals simp [nextLevel_length]; omega

/-- The builder's odd tie-break, symbolically: three leaves combine as
`H(H(a,b), H(c,c))`. -/
theorem buildRoot_three (a b c : String) :
    buildRoot [a, b, c] = hashPair (hashPair a b) (hashPair c c) := by
  simp [buildRoot, nextLevel]

/-- The generated path for the three-entry stream's trailing leaf: level 0
is skipped (sibling index 3 is out of range), level 1 records
`H(leafA, leafB)` — a single entry for a two-level walk. -/
theorem proofPath_three :
    generateProofPath [entryA, entryB, entryC] entryC
      = [hashPair (leafOf entryA) (leafOf entryB)] := by
  have h1 : List.findIdx? (· == leafOf entryC) ([entryA, entryB, entryC].map leafOf)
      = some 2 := by decide
  rw [generateProofPath]
  simp only [h1]
  simp [proofLoop, nextLevel, List.get?]

/-- Looking up the key just written by `Map.set` yields the new value. -/
theorem mapLookup_mapSet_self : ∀ (m : IndexMap) (c : String) (v : IndexEntry),
    mapLookup (mapSet m c v) c = some v
  | [], c, v => by simp [mapSet, mapLookup]
  | (k, w) :: rest, c, v => by
      cases hB : (k == c) with
      | true => simp [mapSet, hB, mapLookup]
      | false => simp [mapSet, hB, mapLookup, mapLookup_mapSet_self rest c v]

/-- Writing the same key-value pair twice with `Map.set` equals writing it
once. -/
theorem mapSet_idem : ∀ (m : IndexMap) (c : String) (v : IndexEntry),
    mapSet (mapSet m c v) c v = mapSet m c v
  | [], c, v => by simp [mapSet]
  | (k, w) :: rest, c, v => by
      cases hB : (k == c) with
      | true => simp [mapSet, hB]
      | false => simp [mapSet, hB, mapSet_idem rest c v]

/-- Membership in the stream-id accumulator fold behind `streamIdsOf`. -/
theorem mem_streamIds_foldl : ∀ (l : List IndexEntry) (acc : List String) (sid : String),
    sid ∈ l.foldl
        (fun acc e => if acc.contains e.streamId then acc else acc ++ [e.streamId]) acc ↔
      sid ∈ acc ∨ ∃ e ∈ l, e.streamId = sid
  | [], acc, sid => by simp
  | e :: rest, acc, sid => by
      cases hB : (acc.contains e.streamId) with
      | true =>
          simp only [List.foldl_cons, hB, if_true]
          rw [mem_streamIds_foldl rest acc sid]
          have hmem : e.streamId ∈ acc := by
            simpa using hB
          constructor
          · rintro (h | ⟨f, hf, hfs⟩)
            · exact Or.inl h
            · exact Or.inr ⟨f, List.mem_cons_of_mem e hf, hfs⟩
          · rintro (h | ⟨f, hf, hfs⟩)
            · exact Or.inl h
            · rcases List.mem_cons.mp hf with rfl | hf'
              · exact Or.inl (hfs ▸ hmem)
              · exact Or.inr ⟨f, hf', hfs⟩
      | false =>
          simp only [List.foldl_cons, hB, Bool.false_eq_true, if_false]
          rw [mem_streamIds_foldl rest (acc ++ [e.streamId]) sid]
          simp only [List.mem_append, List.mem_singleton]
          constructor
          · rintro ((h | h) | ⟨f, hf, hfs⟩)
            · exact Or.inl h
            · exact Or.inr ⟨e, List.mem_cons_self e rest, h.symm⟩
            · exact Or.inr ⟨f, List.mem_cons_of_mem e hf, hfs⟩
          · rintro (h | ⟨f, hf, hfs⟩)
            · exact Or.inl (Or.inl h)
            · rcases List.mem_cons.mp hf with rfl | hf'
              · exact Or.inl (Or.inr hfs.symm)
              · exact Or.inr ⟨f, hf', hfs⟩

/-- A stream id is scheduled exactly when some current entry carries it. -/
theorem mem_streamIdsOf (m : IndexMap) (sid : String) :
    sid ∈ streamIdsOf m ↔ ∃ e ∈ mapValues m, e.streamId = sid := by
  rw [streamIdsOf, mem_streamIds_foldl]
  simp

/-- Replacing the value at an existing key whose old value lay in stream
`sid` with a value outside `sid` shrinks that stream's entry list by
exactly one. -/
theorem entriesOfStream_mapSet_length :
    ∀ (m : IndexMap) (cid : String) (old v : IndexEntry) (sid : String),
      mapLookup m cid = some old → old.streamId = sid → v.streamId ≠ sid →
      (entriesOfStream (mapSet m cid v) sid).length + 1 = (entriesOfStream m sid).length
  | [], cid, old, v, sid, hl, _, _ => by simp [mapLookup] at hl
  | (k, w) :: rest, cid, old, v, sid, hl, hold, hv => by
      cases hB : (k == cid) with
      | true =>
          have hw : w = old := by
            simpa [mapLookup, hB] using hl
          subst hw
          have hvs : (v.streamId == sid) = false := by
            simpa using hv
          have hws : (w.streamId == sid) = true := by
            simpa using hold
          simp [mapSet, hB, entriesOfStream, mapValues, List.filter_cons, hvs, hws]
      | false =>
          have hl' : mapLookup rest cid = some old := by
            simpa [mapLookup, hB] using hl
          have hrec := entriesOfStream_mapSet_length rest cid old v sid hl' hold hv
          cases hw : (w.streamId == sid) with
          | true =>
              simpa [mapSet, hB, entriesOfStream, mapValues, List.filter_cons, hw]
                using hrec
          | false =>
              simpa [mapSet, hB, entriesOfStream, mapValues, List.filter_cons, hw]
                using hrec

/-- C4 (amended): if any hit's content address is absent from the current
index, the whole verified search returns an error — the `Error` thrown by
`generateMerkleProof` propagates through `search`'s single try/catch, which
rethrows — so no verified results are returned at all, rather than the
missing hit alone being excluded. -/
theorem search_error_on_missing : ∀ (m : IndexMap) (hits : List Hit),
    (∃ h ∈ hits, mapLookup m h.id = none) →
    ∃ msg, searchVerifiedResults m hits = .error msg
  | _, [], hex => by simp at hex
  | m, h0 :: rest, hex => by
      cases hlook : mapLookup m h0.id with
      | none =>
          refine ⟨"Index entry not found for CID: " ++ h0.id, ?_⟩
          simp [searchVerifiedResults, generateMerkleProof, hlook]
      | some entry =>
          have hex' : ∃ h ∈ rest, mapLookup m h.id = none := by
            rcases hex with ⟨h, hmem, hnone⟩
            rcases List.mem_cons.mp hmem with rfl | hmem'
            · rw [hlook] at hnone
              cases hnone
            · exact ⟨h, hmem', hnone⟩
          obtain ⟨msg, hmsg⟩ := search_error_on_missing m rest hex'
          exact ⟨msg, by simp [searchVerifiedResults, generateMerkleProof, hlook, hmsg]⟩

/-! ### Concrete digest values for the three-entry stream -/

/-- Leaf digest of `entryA` (data string `"A-1-1"`). -/
theorem leafA_eq : leafOf entryA = "0x0000000000000000000000000000000000000000000000000000000003a92a09" := by decide

/-- Leaf digest of `entryB` (data string `"B-2-2"`). -/
theorem leafB_eq : leafOf entryB = "0x0000000000000000000000000000000000000000000000000000000003b7454c" := by decide

/-- Leaf digest of `entryC` (data string `"C-3-3"`). -/
theorem leafC_eq : leafOf entryC = "0x0000000000000000000000000000000000000000000000000000000003c5608f" := by decide

/-- Internal node over the first two leaves. -/
theorem pairAB_eq :
    hashPair "0x0000000000000000000000000000000000000000000000000000000003a92a09"
        "0x0000000000000000000000000000000000000000000000000000000003b7454c"
      = "0x0000000000000000000000000000000000000000000000000000000023c4188b" :=
  hashPair_eval _ _ "0x0000000000000000000000000000000" "000000000000000000000000003a92a09"
    "0x0000000000000000000000000000000" "000000000000000000000000003b7454c"
    (-493775128) (-49077573) (-232851571) (600053899) _
    (by decide) (by decide) (by decide) (by decide) (by decide) (by decide) (by decide)

/-- Internal node of the duplicated trailing leaf. -/
theorem pairCC_eq :
    hashPair "0x0000000000000000000000000000000000000000000000000000000003c5608f"
        "0x0000000000000000000000000000000000000000000000000000000003c5608f"
      = "0x000000000000000000000000000000000000000000000000000000002b641bf6" :=
  hashPair_eval _ _ "0x0000000000000000000000000000000" "000000000000000000000000003c5608f"
    "0x0000000000000000000000000000000" "000000000000000000000000003c5608f"
    (-493775128) (4559013) (45575907) (-727981046) _
    (by decide) (by decide) (by decide) (by decide) (by decide) (by decide) (by decide)

/-- The three-leaf root, H(H(a,b), H(c,c)). -/
theorem rootABC_eq :
    hashPair "0x0000000000000000000000000000000000000000000000000000000023c4188b"
        "0x000000000000000000000000000000000000000000000000000000002b641bf6"
      = "0x000000000000000000000000000000000000000000000000000000005ea45762" :=
  hashPair_eval _ _ "0x0000000000000000000000000000000" "000000000000000000000000023c4188b"
    "0x0000000000000000000000000000000" "00000000000000000000000002b641bf6"
    (-493775128) (-805852405) (98089277) (1587828578) _
    (by decide) (by decide) (by decide) (by decide) (by decide) (by decide) (by decide)

/-- What the index-parity verifier computes from leaf C and the single recorded sibling (sibling concatenated on the right). -/
theorem foldSibRight_eq :
    hashPair "0x0000000000000000000000000000000000000000000000000000000003c5608f"
        "0x0000000000000000000000000000000000000000000000000000000023c4188b"
      = "0x000000000000000000000000000000000000000000000000000000005bb20190" :=
  hashPair_eval _ _ "0x0000000000000000000000000000000" "000000000000000000000000003c5608f"
    "0x0000000000000000000000000000000" "000000000000000000000000023c4188b"
    (-493775128) (4559013) (45575907) (-1538392464) _
    (by decide) (by decide) (by decide) (by decide) (by decide) (by decide) (by decide)

/-- The other possible fold for the single recorded sibling (sibling concatenated on the left). -/
theorem foldSibLeft_eq :
    hashPair "0x0000000000000000000000000000000000000000000000000000000023c4188b"
        "0x0000000000000000000000000000000000000000000000000000000003c5608f"
      = "0x000000000000000000000000000000000000000000000000000000002576ccf0" :=
  hashPair_eval _ _ "0x0000000000000000000000000000000" "000000000000000000000000023c4188b"
    "0x0000000000000000000000000000000" "000000000000000000000000003c5608f"
    (-493775128) (-805852405) (98089277) (628542704) _
    (by decide) (by decide) (by decide) (by decide) (by decide) (by decide) (by decide)

/-- The Merkle root of the three-entry stream, fully evaluated. -/
theorem computeMerkleRoot_three_eq :
    computeMerkleRoot [entryA, entryB, entryC]
      = "0x000000000000000000000000000000000000000000000000000000005ea45762" := by
  rw [computeMerkleRoot]
  simp only [List.map_cons, List.map_nil]
  rw [buildRoot_three, leafA_eq, leafB_eq, leafC_eq, pairAB_eq, pairCC_eq, rootABC_eq]



/-! ## The claims -/

/-- C1 (counterexample): for the concrete three-entry stream with target
index 2 (the trailing odd leaf), the generated proof is the single sibling
`H(leafA, leafB)`, and no fold of the target leaf with that sibling — the
index-parity order the spec-modelled verifier uses, nor the opposite
concatenation order — reproduces the root the builder computes, so
verification of the generated proof fails. -/
theorem verify_generated_proof_fails :
    verifyProof (leafOf entryC) 2 (generateProofPath [entryA, entryB, entryC] entryC)
        (computeMerkleRoot [entryA, entryB, entryC]) = false ∧
    hashPair (hashPair (leafOf entryA) (leafOf entryB)) (leafOf entryC)
        ≠ computeMerkleRoot [entryA, entryB, entryC] := by
  constructor
  · rw [proofPath_three, computeMerkleRoot_three_eq, verifyProof]
    have hfold : verifyFold (leafOf entryC) 2 [hashPair (leafOf entryA) (leafOf entryB)]
        = hashPair (leafOf entryC) (hashPair (leafOf entryA) (leafOf entryB)) := by
      simp [verifyFold]
    rw [hfold, leafA_eq, leafB_eq, leafC_eq, pairAB_eq, foldSibRight_eq]
    decide
  · rw [computeMerkleRoot_three_eq, leafA_eq, leafB_eq, leafC_eq, pairAB_eq, foldSibLeft_eq]
    decide

/-- C1 (witness): the amended round-trip at a concrete four-leaf level
list and target index 2: both hypotheses hold by evaluation and the fold
of the generated path equals the built root. -/
theorem verify_roundtrip_witness :
    (["a", "b", "c", "d"] : List String).get? 2 = some "c" ∧
    fullPath ["a", "b", "c", "d"] 2 = true ∧
    verifyFold "c" 2 (proofLoop ["a", "b", "c", "d"] 2) = buildRoot ["a", "b", "c", "d"] :=
  ⟨by decide, by simp [fullPath, nextLevel],
    verify_roundtrip ["a", "b", "c", "d"] 2 "c" (by decide) (by simp [fullPath, nextLevel])⟩

/-- C2: the two leaf computations disagree — `SeiIndexer.hashLeaf` hashes
`"a-1,2-3"` (first 10 components, comma-joined, dash separators) while the
memory tool's `computeMerkleLeaf` hashes `"a123"` (first 5 components, no
separators), and the digests differ at cid `"a"`, embedding `[1, 2]`,
timestamp `3`. -/
theorem leaf_encodings_disagree :
    hashLeaf "a" [1, 2] 3 ≠ computeMerkleLeaf "a" [1, 2] 3 := by decide

/-- C3 (counterexample): the anchoring cycle does not consult any stored
per-stream root: whatever root a previous cycle submitted — here exactly
the currently computed one, i.e. nothing changed — the cycle still submits
the stream's root again, refuting "submits only when it has changed". -/
theorem anchoring_submits_unconditionally :
    ¬ ∀ (anchored : String → Option String) (m : IndexMap) (p : String × String),
        p ∈ updateIndexRoots m → anchored p.1 ≠ some p.2 := by
  intro hclaim
  have hmem : ("s", computeMerkleRoot (entriesOfStream exIndex "s"))
      ∈ updateIndexRoots exIndex := by
    simp [updateIndexRoots, streamIdsOf, mapValues, entriesOfStream, exIndex, entryA]
  exact hclaim (fun _ => some (computeMerkleRoot (entriesOfStream exIndex "s")))
    exIndex _ hmem rfl

/-- C3 (amended): on each timer cycle, every stream with at least one
entry in the index gets its Merkle root recomputed from the current
entries and submitted, unconditionally — the code keeps no `AnchoredRoot`,
performs no comparison, and `setIndexRootOnChain` only logs failures. -/
theorem updateIndexRoots_submits (m : IndexMap) (sid : String)
    (h : ∃ e ∈ mapValues m, e.streamId = sid) :
    (sid, computeMerkleRoot (entriesOfStream m sid)) ∈ updateIndexRoots m := by
  have hmem : sid ∈ streamIdsOf m := (mem_streamIdsOf m sid).mpr h
  rw [updateIndexRoots]
  exact List.mem_map.mpr ⟨sid, hmem, rfl⟩

/-- C3 (witness): the one-entry index over stream `"s"` satisfies the
hypothesis and its root is indeed scheduled for submission. -/
theorem updateIndexRoots_submits_witness :
    (∃ e ∈ mapValues exIndex, e.streamId = "s") ∧
    ("s", computeMerkleRoot (entriesOfStream exIndex "s")) ∈ updateIndexRoots exIndex :=
  ⟨⟨entryA, by simp [mapValues, exIndex], rfl⟩,
    updateIndexRoots_submits exIndex "s" ⟨entryA, by simp [mapValues, exIndex], rfl⟩⟩

/-- C4 (counterexample): with the index holding only cid `"A"` and the
vector store returning hits `"A"` then `"X"`, the verified search returns
no result list at all — the present hit `"A"` is lost too, instead of being
returned with the missing `"X"` excluded. -/
theorem search_aborts_on_missing_hit :
    ¬ ∃ results, searchVerifiedResults exIndex exHits = Except.ok results := by
  have hval : searchVerifiedResults exIndex exHits
      = Except.error ("Index entry not found for CID: " ++ "X") := by
    simp [searchVerifiedResults, generateMerkleProof, exIndex, exHits, mapLookup]
  rintro ⟨r, hr⟩
  rw [hval] at hr
  cases hr

/-- C4 (witness): the hit list `exHits` contains the absent cid `"X"`, and
the search consequently returns an error. -/
theorem search_error_on_missing_witness :
    (∃ h ∈ exHits, mapLookup exIndex h.id = none) ∧
    (∃ msg, searchVerifiedResults exIndex exHits = Except.error msg) :=
  ⟨⟨{ id := "X", score := 0 }, by simp [exHits], by decide⟩,
    search_error_on_missing exIndex exHits
      ⟨{ id := "X", score := 0 }, by simp [exHits], by decide⟩⟩

/-- C5: at the three-entry stream's trailing leaf (index 2), the generator
does not apply the builder's duplicate-self rule: level 0's sibling index 3
is out of range and nothing is recorded for that level, so the proof is the
single entry `H(leafA, leafB)` — not one sibling per non-root level (the
tree has two non-root levels). -/
theorem missing_sibling_skipped :
    generateProofPath [entryA, entryB, entryC] entryC
        = [hashPair (leafOf entryA) (leafOf entryB)] ∧
    (generateProofPath [entryA, entryB, entryC] entryC).length = 1 :=
  ⟨proofPath_three, by rw [proofPath_three]; rfl⟩

/-- C6: re-processing an append event whose cid is already in the index is
a no-op on the local index — `Map.set` on the existing key leaves the map
(hence every stream's entry list and recomputed root) unchanged — and the
spec-modelled `insert` reports `false` (not newly inserted) on the second
call. -/
theorem ingest_idempotent (m : IndexMap) (e : AppendEvent)
    (h : e.fetched.isSome = true) :
    processMemoryAppendedEvent (processMemoryAppendedEvent m e) e
        = processMemoryAppendedEvent m e ∧
    insertNewlyInserted (processMemoryAppendedEvent m e) e.cid = false := by
  obtain ⟨c, hc⟩ := Option.isSome_iff_exists.mp h
  constructor
  · simp only [processMemoryAppendedEvent, hc]
    exact mapSet_idem ..
  · simp only [processMemoryAppendedEvent, hc, insertNewlyInserted]
    rw [mapLookup_mapSet_self]
    rfl

/-- C6 (witness): the successful event `exEvent` applied twice to the
empty index. -/
theorem ingest_idempotent_witness :
    exEvent.fetched.isSome = true ∧
    (processMemoryAppendedEvent (processMemoryAppendedEvent [] exEvent) exEvent
        = processMemoryAppendedEvent [] exEvent ∧
      insertNewlyInserted (processMemoryAppendedEvent [] exEvent) exEvent.cid = false) :=
  ⟨rfl, ingest_idempotent [] exEvent rfl⟩

/-- C7: the builder's fixed tie-breaks: an odd level pairs its trailing
digest with itself, so three leaves combine as `H(H(a,b), H(c,c))`; the
empty leaf list builds to the all-zero sentinel root; a single leaf builds
to itself. -/
theorem merkle_builder_shape :
    (∀ a b c : String, buildRoot [a, b, c] = hashPair (hashPair a b) (hashPair c c)) ∧
    buildRoot [] = zeroRoot ∧ (∀ x : String, buildRoot [x] = x) :=
  ⟨buildRoot_three, by rw [buildRoot], fun x => by rw [buildRoot]⟩

/-- C8: the digest primitive is a 32-bit rolling hash, not collision
resistant: the distinct two-character inputs `"Aa"` and `"BB"` produce the
same digest (both accumulate to 2112 = 0x840). -/
theorem simpleHash_collision :
    simpleHash "Aa" = simpleHash "BB" ∧ "Aa" ≠ "BB" :=
  ⟨by decide, by decide⟩

/-- C9: per-event isolation of the ingestion loop: an event whose content
fetch fails is logged and skipped — the index is unchanged by it — and the
remaining events of the batch are processed exactly as if it were absent. -/
theorem per_event_isolation (m : IndexMap) (e : AppendEvent)
    (rest : List AppendEvent) (h : e.fetched = none) :
    processNewEvents m (e :: rest) = processNewEvents m rest := by
  simp [processNewEvents, processMemoryAppendedEvent, h]

/-- C9 (witness): a failing fetch followed by a succeeding event, from the
empty index. -/
theorem per_event_isolation_witness :
    exFailedEvent.fetched = none ∧
    processNewEvents [] [exFailedEvent, exEvent] = processNewEvents [] [exEvent] :=
  ⟨rfl, per_event_isolation [] exFailedEvent [exEvent] rfl⟩

/-- C10: the local index is one map keyed by cid across all streams:
processing an append event whose cid is indexed under a different stream
overwrites the entry — afterwards the cid's entry carries the new stream
id, and the former stream's entry list is exactly one entry shorter. -/
theorem cross_stream_overwrite (m : IndexMap) (e : AppendEvent) (old : IndexEntry)
    (c : Content) (hold : mapLookup m e.cid = some old)
    (hstream : old.streamId ≠ e.streamId) (hfetch : e.fetched = some c) :
    (∃ newEntry, mapLookup (processMemoryAppendedEvent m e) e.cid = some newEntry ∧
        newEntry.streamId = e.streamId) ∧
    (entriesOfStream (processMemoryAppendedEvent m e) old.streamId).length + 1
        = (entriesOfStream m old.streamId).length := by
  simp only [processMemoryAppendedEvent, hfetch]
  constructor
  · exact ⟨_, mapLookup_mapSet_self .., rfl⟩
  · exact entriesOfStream_mapSet_length m e.cid old _ old.streamId hold rfl
      (fun hh => hstream hh.symm)

/-- C10 (witness): the index holding cid `"A"` under stream `"s"`, hit by
the event reusing cid `"A"` for stream `"t2"`. -/
theorem cross_stream_overwrite_witness :
    mapLookup exIndex exReuseEvent.cid = some entryA ∧
    entryA.streamId ≠ exReuseEvent.streamId ∧
    ((∃ newEntry,
        mapLookup (processMemoryAppendedEvent exIndex exReuseEvent) exReuseEvent.cid
          = some newEntry ∧ newEntry.streamId = exReuseEvent.streamId) ∧
      (entriesOfStream (processMemoryAppendedEvent exIndex exReuseEvent)
          entryA.streamId).length + 1
        = (entriesOfStream exIndex entryA.streamId).length) :=
  ⟨rfl, by decide,
    cross_stream_overwrite exIndex exReuseEvent entryA
      { embedding := some [8], text := "y", metadata := [], timestamp := 10 }
      rfl (by decide) rfl⟩

end Seim0
